import Mathlib

set_option genSizeOf false
set_option genSizeOfSpec false
set_option genInjectivity false

/-!
Verification of the WebAssembly IR representation layer (src/tools/optimizer/wasm.h).

Shallow embedding conventions:
* machine integers are modelled as `Nat` (sizes, offsets-within-chunk, the `Var`
  word) or `Int` (the C++ `int offset` field of `Load`/`Store`);
* an `assert` that fails (an abort) is modelled by the operation returning `none`;
* a pointer returned by the arena is modelled by the pair (chunk number, offset
  in chunk) together with the rounded size of the reserved region;
* a `const char *` name is modelled by its address, a `Nat` (the code itself
  only ever uses the address, via the `(size_t)str > MAX_NUM` magnitude test).
-/

namespace wasm

/-- The chunk size constant of `Arena::alloc` (`const size_t CHUNK_SIZE = 10000`). -/
def CHUNK_SIZE : Nat := 10000

/-- Rounding of `Arena::alloc`: `(sizeof(T) + 7) & (-8)`, i.e. `s+7` with the
low three bits cleared, which is `(s + 7) / 8 * 8`. -/
def roundUp8 (s : Nat) : Nat := (s + 7) / 8 * 8

/-- Arena state: `std::vector<char*> chunks` modelled by the number of chunks
allocated so far, and `int index`, the cursor into the last chunk.  The chunk
contents are not modelled; a returned pointer is identified by
(chunk number, offset). -/
structure Arena where
  chunks : Nat
  index : Nat

/-- A freshly constructed `Arena`: no chunks.  (In the C++ source `index` is
uninitialized at construction, but it is never read while `chunks.size() == 0`
because of the short-circuit `||` in `alloc`, so choosing 0 is harmless.) -/
def Arena.fresh : Arena := ⟨0, 0⟩

/-- A storage region handed out by `Arena::alloc`: the pointer is
(chunk, offset), and the region reserved for it is
[offset, offset + size) inside that chunk, where `size` is the rounded size. -/
structure Block where
  chunk : Nat
  offset : Nat
  size : Nat

/-- `Arena::alloc<T>()` for a type of size `sizeofT`:

    size_t currSize = (sizeof(T) + 7) & (-8);
    assert(currSize < CHUNK_SIZE);                         -- `none` on failure
    if (chunks.size() == 0 || index + currSize >= CHUNK_SIZE) {
      chunks.push_back(new char[CHUNK_SIZE]); index = 0;
    }
    T* ret = (T*)(chunks.back() + index);
    index += currSize;
    return ret;
-/
def Arena.alloc (a : Arena) (sizeofT : Nat) : Option (Block × Arena) :=
  if roundUp8 sizeofT < CHUNK_SIZE then
    if a.chunks = 0 ∨ CHUNK_SIZE ≤ a.index + roundUp8 sizeofT then
      some (⟨a.chunks, 0, roundUp8 sizeofT⟩, ⟨a.chunks + 1, roundUp8 sizeofT⟩)
    else
      some (⟨a.chunks - 1, a.index, roundUp8 sizeofT⟩, ⟨a.chunks, a.index + roundUp8 sizeofT⟩)
  else
    none

/-- Running a sequence of `Arena::alloc` calls (given by their `sizeof(T)`
values) left to right, collecting the returned regions.  Fails (`none`) as soon
as one allocation trips the assert. -/
def Arena.allocList : List Nat → Arena → Option (List Block × Arena)
  | [], a => some ([], a)
  | s :: rest, a =>
    match a.alloc s with
    | none => none
    | some (b, a1) =>
      match Arena.allocList rest a1 with
      | none => none
      | some (bs, a2) => some (b :: bs, a2)

/-- The constant of `class Var`: `MAX_NUM = 1000000`; "less than this, a num,
higher, a string; 0 = null". -/
def MAX_NUM : Nat := 1000000

/-- A `Var` is a single machine word, the union of `unsigned num` and
`Name str`; the word value is what the magnitude tests inspect. -/
structure Var where
  rep : Nat
deriving DecidableEq

/-- The default constructor `Var() : num(0)` — the null identifier. -/
def Var.null : Var := ⟨0⟩

/-- The numeric constructor `Var(unsigned num) : num(num)` with
`assert(num > 0 && num < MAX_NUM)`; assertion failure is `none`. -/
def Var.ofNum (num : Nat) : Option Var :=
  if 0 < num ∧ num < MAX_NUM then some ⟨num⟩ else none

/-- The name constructor `Var(Name str) : str(str)` with
`assert(((size_t)str) > MAX_NUM)`; the argument is the address of the string.
Assertion failure is `none`. -/
def Var.ofName (str : Nat) : Option Var :=
  if MAX_NUM < str then some ⟨str⟩ else none

/-- The three identifier classes distinguished by the comment on `MAX_NUM`:
"less than this, a num, higher, a string; 0 = null". -/
inductive VarKind where
  | null
  | numeric
  | named

/-- Magnitude classification of a `Var` word, per the `MAX_NUM` comment. -/
def Var.classify (x : Var) : VarKind :=
  if x.rep = 0 then VarKind.null
  else if x.rep < MAX_NUM then VarKind.numeric
  else VarKind.named

/-- `enum BasicType { none, i32, i64, f32, f64 }`. -/
inductive BasicType where
  | none
  | i32
  | i64
  | f32
  | f64

/-- `struct Literal`.  As written in the source, the struct contains the field
`BasicType type;` and then the declaration `union value { int32_t i32; int64_t
i64; float f32; double f64; };` — which declares a *nested union type* named
`Literal::value`, not a data member.  The struct therefore has exactly one
field, the discriminant, and no payload storage at all. -/
structure Literal where
  type : BasicType

/-- `enum UnaryOp`. -/
inductive UnaryOp where
  | Clz | Ctz | Popcnt
  | Neg | Abs | Ceil | Floor | Trunc | Nearest | Sqrt

/-- `enum BinaryOp`. -/
inductive BinaryOp where
  | Add | Sub | Mul
  | DivS | DivU | RemS | RemU | And | Or | Xor | Shl | ShrU | ShrS
  | Div | CopySign | Min | Max

/-- `enum RelationalOp`. -/
inductive RelationalOp where
  | Eq | Ne
  | LtS | LtU | LeS | LeU | GtS | GtU | GeS | GeU
  | Lt | Le | Gt | Ge

/-- `enum ConvertOp`. -/
inductive ConvertOp where
  | ExtendSInt32 | ExtendUInt32 | WrapInt64 | TruncSFloat32 | TruncUFloat32
  | TruncSFloat64 | TruncUFloat64 | ReinterpretFloat
  | ConvertSInt32 | ConvertUInt32 | ConvertSInt64 | ConvertUInt64
  | PromoteFloat32 | DemoteFloat64 | ReinterpretInt

/-- `enum HostOp`. -/
inductive HostOp where
  | PageSize | MemorySize | GrowMemory | HasFeature

/-- An `Expression*` value: the address of an arena-allocated node, or `none`
for the null pointer.  Nodes reference their children through such pointers,
exactly as in the source, where the tree is formed by non-owning pointers
into arena storage; which node an address designates is given by a heap
(`Nat → Option Expression`) in the statements that need it. -/
abbrev ExpressionRef : Type := Option Nat

/-- `typedef std::vector<Expression*> ExpressionList`. -/
abbrev ExpressionList : Type := List ExpressionRef

/-- The expression node classes, one constructor per concrete subclass of
`class Expression`, with the fields in source order.  A `Switch::Case`
(`Literal value; Expression *body; bool fallthru;`) is the triple
`Literal × ExpressionRef × Bool`. -/
inductive Expression where
  | Nop : Expression
  | Block : Var → ExpressionList → Expression
  | If : ExpressionRef → ExpressionRef → ExpressionRef → Expression
  | Loop : Var → Var → ExpressionRef → Expression
  | Label : Var → Expression
  | Break : Var → ExpressionRef → Expression
  | Switch : Var → ExpressionRef → List (Literal × ExpressionRef × Bool) →
      ExpressionRef → Expression
  | Call : Var → ExpressionList → Expression
  | CallImport : Var → ExpressionList → Expression
  | CallIndirect : Var → ExpressionRef → ExpressionList → Expression
  | GetLocal : Var → Expression
  | SetLocal : Var → ExpressionRef → Expression
  | Load : Nat → Bool → Int → Nat → ExpressionRef → Expression
  | Store : Nat → Int → Nat → ExpressionRef → ExpressionRef → Expression
  | Const : Literal → Expression
  | Unary : UnaryOp → ExpressionRef → Expression
  | Binary : BinaryOp → ExpressionRef → ExpressionRef → Expression
  | Compare : RelationalOp → ExpressionRef → ExpressionRef → Expression
  | Convert : ConvertOp → ExpressionRef → Expression
  | Host : HostOp → ExpressionList → Expression

/-- Reader for the public fields of a `Load` node
(`unsigned bytes; bool signed_; int offset; unsigned align; Expression *ptr;`). -/
def Expression.loadFields :
    Expression → Option (Nat × Bool × Int × Nat × ExpressionRef)
  | .Load bytes signed_ offset align ptr => some (bytes, signed_, offset, align, ptr)
  | _ => none

/-- Reader for the public fields of a `Switch` node
(`Var var; Expression *value; std::vector<Case> cases; Expression *default_;`). -/
def Expression.switchFields :
    Expression →
      Option (Var × ExpressionRef ×
        List (Literal × ExpressionRef × Bool) × ExpressionRef)
  | .Switch var value cases default_ => some (var, value, cases, default_)
  | _ => none

/-- The fallthru flag of a `Switch::Case`. -/
def caseFallthru (c : Literal × ExpressionRef × Bool) : Bool := c.2.2

/-- `typedef const char *Name`, modelled by the string's address. -/
abbrev Name : Type := Nat

/-- `struct NameType { Name name; BasicType type; }`. -/
structure NameType where
  name : Name
  type : BasicType

/-- `class CustomType { NameType self; std::vector<NameType> params; }`. -/
structure CustomType where
  self : NameType
  params : List NameType

/-- `class Function`. -/
structure Function where
  self : NameType
  params : List NameType
  locals : List NameType

/-- `class Import { Name name; CustomType type; }`. -/
structure Import where
  name : Name
  type : CustomType

/-- `class Export { Name name; Var value; }`. -/
structure Export where
  name : Name
  value : Var

/-- `class Table { std::vector<Var> vars; }`. -/
structure Table where
  vars : List Var

/-- Modelled from the spec: the entities that `Module`'s resolution map
(`std::map<Var, void*> map` — "maps var ids/names to things") can point to.
The `void*` in the source is untyped; the spec lists the registrable entity
kinds (`CustomType`/`Function`/`Import`/`Export`). -/
inductive Entity where
  | custom : CustomType → Entity
  | func : Function → Entity
  | imp : Import → Entity
  | exp : Export → Entity

/-- `class Module`, fields in source order; the resolution map
`std::map<Var, void*>` is modelled as an association list keyed by `Var`. -/
structure Module where
  customTypes : List CustomType
  functions : List Function
  imports : List Import
  exports : List Export
  table : Table
  map : List (Var × Entity)
  nextVar : Nat
  allocator : Arena

/-- `Module() : nextVar(1) {}` — all containers default-construct empty. -/
def Module.init : Module :=
  ⟨[], [], [], [], ⟨[]⟩, [], 1, Arena.fresh⟩

/-- Lookup in the resolution map by identifier equality. -/
def lookupVar : List (Var × Entity) → Var → Option Entity
  | [], _ => none
  | (k, e) :: rest, v => if k = v then some e else lookupVar rest v

/-- Modelled from the spec: the "register a `Function`" operation, absent from
src (the source declares the `map` and `functions` members but no method).
Per the spec, registration appends the function and records it in the
resolution map under its name's identifier; the key is built by the `Var`
name constructor, whose assert is modelled as `none`. -/
def Module.registerFunction (m : Module) (f : Function) : Option Module :=
  match Var.ofName f.self.name with
  | none => none
  | some v =>
    some { m with functions := m.functions ++ [f], map := (v, Entity.func f) :: m.map }

/-- Modelled from the spec: the resolution operation, absent from src.
"Resolution is a pure lookup: given a `Var`, consult the module's map;
absence is a consumer-level error (unresolved reference), not silently
defaulted." -/
def Module.resolve (m : Module) (v : Var) : Except String Entity :=
  match lookupVar m.map v with
  | some e => Except.ok e
  | none => Except.error "unresolved reference"

/-- Modelled from the spec: the "mint fresh numeric identifier" operation,
absent from src (the source declares the counter `unsigned nextVar`,
initialized to 1, but no method).  Per the spec, minting returns the current
counter value and increments it. -/
def Module.mint (m : Module) : Nat × Module :=
  (m.nextVar, { m with nextVar := m.nextVar + 1 })

/-- Minting `n` fresh identifiers in a row, collecting them in order. -/
def Module.mintN : Nat → Module → List Nat × Module
  | 0, m => ([], m)
  | n + 1, m =>
    let r := Module.mint m
    let rest := Module.mintN n r.2
    (r.1 :: rest.1, rest.2)

/-! Arithmetic facts about the size rounding. -/

theorem roundUp8_ge (s : Nat) : s ≤ roundUp8 s := by
  have h := Nat.div_add_mod (s + 7) 8
  have h2 : (s + 7) % 8 < 8 := Nat.mod_lt _ (by decide)
  unfold roundUp8
  omega

theorem roundUp8_mod8 (s : Nat) : roundUp8 s % 8 = 0 := by
  unfold roundUp8
  exact Nat.mul_mod_left _ 8

theorem roundUp8_pos (s : Nat) (hs : 1 ≤ s) : 8 ≤ roundUp8 s := by
  have h := Nat.div_add_mod (s + 7) 8
  have h2 : (s + 7) % 8 < 8 := Nat.mod_lt _ (by decide)
  unfold roundUp8
  omega

/-- Case analysis of a successful `Arena::alloc`: either a new chunk was
started (`chunks.size() == 0 || index + currSize >= CHUNK_SIZE`) or the
request was placed at the cursor of the current last chunk. -/
theorem Arena.alloc_cases (a : Arena) (s : Nat) (b : Block) (a2 : Arena)
    (h : a.alloc s = some (b, a2)) :
    roundUp8 s < CHUNK_SIZE ∧
    ((a.chunks = 0 ∨ CHUNK_SIZE ≤ a.index + roundUp8 s) ∧
        b = ⟨a.chunks, 0, roundUp8 s⟩ ∧ a2 = ⟨a.chunks + 1, roundUp8 s⟩ ∨
      ¬(a.chunks = 0 ∨ CHUNK_SIZE ≤ a.index + roundUp8 s) ∧
        b = ⟨a.chunks - 1, a.index, roundUp8 s⟩ ∧ a2 = ⟨a.chunks, a.index + roundUp8 s⟩) := by
  unfold Arena.alloc at h
  split at h
  · split at h
    · next h1 h2 =>
      refine ⟨h1, Or.inl ⟨h2, ?_, ?_⟩⟩ <;> cases h <;> rfl
    · next h1 h2 =>
      refine ⟨h1, Or.inr ⟨h2, ?_, ?_⟩⟩ <;> cases h <;> rfl
  · exact absurd h (by simp)

/-- After any successful allocation the cursor is strictly below the chunk
size. -/
theorem Arena.alloc_inv (a : Arena) (s : Nat) (b : Block) (a2 : Arena)
    (h : a.alloc s = some (b, a2)) : a2.index < CHUNK_SIZE := by
  obtain ⟨h1, h2 | h2⟩ := Arena.alloc_cases a s b a2 h
  · rw [h2.2.2]
    exact h1
  · rw [h2.2.2]
    simpa using Nat.lt_of_not_le (fun hle => h2.1 (Or.inr hle))

/-- Bookkeeping facts of a successful allocation: the chunk count does not
shrink (and grows by at most one), the block's size is the rounded request,
the block ends exactly at the new cursor, and the block lives in the (new)
last chunk. -/
theorem Arena.alloc_book (a : Arena) (s : Nat) (b : Block) (a2 : Arena)
    (h : a.alloc s = some (b, a2)) :
    a.chunks ≤ a2.chunks ∧ a2.chunks ≤ a.chunks + 1 ∧
    b.size = roundUp8 s ∧ b.offset + b.size = a2.index ∧ b.chunk + 1 = a2.chunks := by
  obtain ⟨h1, h2 | h2⟩ := Arena.alloc_cases a s b a2 h
  · obtain ⟨hc, hb, ha⟩ := h2
    subst hb; subst ha
    simp
  · obtain ⟨hc, hb, ha⟩ := h2
    have hne : a.chunks ≠ 0 := fun h0 => hc (Or.inl h0)
    subst hb; subst ha
    simp
    omega

/-- The region handed out by one allocation, viewed against the arena state it
produced: it sits in an existing chunk, and in the last chunk it ends at or
before the cursor; moreover it fits strictly inside a single chunk. -/
def BlockFits (b : Block) (a : Arena) : Prop :=
  b.chunk + 1 ≤ a.chunks ∧ (b.chunk + 1 = a.chunks → b.offset + b.size ≤ a.index) ∧
    b.offset + b.size < CHUNK_SIZE

/-- Two regions do not overlap: they are in different chunks, or their offset
intervals are disjoint. -/
def BlockDisjoint (x y : Block) : Prop :=
  x.chunk ≠ y.chunk ∨ x.offset + x.size ≤ y.offset ∨ y.offset + y.size ≤ x.offset

theorem Arena.alloc_fits_self (a : Arena) (s : Nat) (b : Block) (a2 : Arena)
    (h : a.alloc s = some (b, a2)) : BlockFits b a2 := by
  obtain ⟨_, _, _, hend, hlast⟩ := Arena.alloc_book a s b a2 h
  have hinv := Arena.alloc_inv a s b a2 h
  exact ⟨Nat.le_of_eq hlast, fun _ => Nat.le_of_eq hend, hend ▸ hinv⟩

/-- A region that fits the pre-state still fits the post-state of any further
allocation, and is disjoint from the newly handed-out region. -/
theorem Arena.alloc_preserve (a : Arena) (s : Nat) (b : Block) (a2 : Arena)
    (b0 : Block) (hfit : BlockFits b0 a) (h : a.alloc s = some (b, a2)) :
    BlockFits b0 a2 ∧ BlockDisjoint b0 b := by
  obtain ⟨hf1, hf2, hf3⟩ := hfit
  obtain ⟨h1, h2 | h2⟩ := Arena.alloc_cases a s b a2 h
  · obtain ⟨hc, hb, ha⟩ := h2
    subst hb; subst ha
    refine ⟨⟨by simpa using Nat.le_succ_of_le hf1, ?_, hf3⟩, Or.inl ?_⟩
    · intro he
      simp at he
      omega
    · simp
      omega
  · obtain ⟨hc, hb, ha⟩ := h2
    have hne : a.chunks ≠ 0 := fun h0 => hc (Or.inl h0)
    subst hb; subst ha
    by_cases hlast : b0.chunk + 1 = a.chunks
    · have hb0 := hf2 hlast
      refine ⟨⟨hf1, fun _ => ?_, hf3⟩, Or.inr (Or.inl ?_)⟩
      · simp
        omega
      · simpa using hb0
    · refine ⟨⟨hf1, fun he => absurd (by simpa using he) hlast, hf3⟩, Or.inl ?_⟩
      simp
      omega

/-- If the cursor is 8-aligned, the handed-out offset and the new cursor are
8-aligned too. -/
theorem Arena.alloc_mod8 (a : Arena) (s : Nat) (b : Block) (a2 : Arena)
    (hmod : a.index % 8 = 0) (h : a.alloc s = some (b, a2)) :
    a2.index % 8 = 0 ∧ b.offset % 8 = 0 := by
  have hr := roundUp8_mod8 s
  obtain ⟨h1, h2 | h2⟩ := Arena.alloc_cases a s b a2 h
  · obtain ⟨hc, hb, ha⟩ := h2
    subst hb; subst ha
    simpa using hr
  · obtain ⟨hc, hb, ha⟩ := h2
    subst hb; subst ha
    simp
    omega

/-- If the chunk count did not change, the allocation went into the current
chunk and advanced the cursor by the rounded size. -/
theorem Arena.alloc_same_chunk (a : Arena) (s : Nat) (b : Block) (a2 : Arena)
    (h : a.alloc s = some (b, a2)) (hsame : a2.chunks = a.chunks) :
    a2.index = a.index + roundUp8 s := by
  obtain ⟨h1, h2 | h2⟩ := Arena.alloc_cases a s b a2 h
  · obtain ⟨hc, hb, ha⟩ := h2
    subst ha
    simp at hsame
  · obtain ⟨hc, hb, ha⟩ := h2
    subst ha
    rfl

/-- A request of at least one byte leaves the cursor at 8 or more. -/
theorem Arena.alloc_min_index (a : Arena) (s : Nat) (b : Block) (a2 : Arena)
    (hs : 1 ≤ s) (h : a.alloc s = some (b, a2)) : 8 ≤ a2.index := by
  have hr := roundUp8_pos s hs
  obtain ⟨h1, h2 | h2⟩ := Arena.alloc_cases a s b a2 h
  · obtain ⟨hc, hb, ha⟩ := h2
    subst ha
    simpa using hr
  · obtain ⟨hc, hb, ha⟩ := h2
    subst ha
    simp
    omega

/-- A request that would exactly fill the remaining space of the current chunk
starts a fresh chunk instead. -/
theorem Arena.alloc_exact_fill (a : Arena) (s : Nat) (b : Block) (a2 : Arena)
    (h : a.alloc s = some (b, a2)) (hfill : a.index + roundUp8 s = CHUNK_SIZE) :
    a2.chunks = a.chunks + 1 ∧ b.offset = 0 ∧ a2.index = roundUp8 s := by
  obtain ⟨h1, h2 | h2⟩ := Arena.alloc_cases a s b a2 h
  · obtain ⟨hc, hb, ha⟩ := h2
    subst hb; subst ha
    simp
  · exact absurd (Or.inr (Nat.le_of_eq hfill.symm)) h2.1

/-! Facts about running a whole sequence of allocations. -/

theorem Arena.allocList_nil_inv (a : Arena) (bs : List Block) (a2 : Arena)
    (h : Arena.allocList [] a = some (bs, a2)) : bs = [] ∧ a2 = a := by
  unfold Arena.allocList at h
  injection h with h3
  injection h3 with h4 h5
  exact ⟨h4.symm, h5.symm⟩

theorem Arena.allocList_cons_inv (s : Nat) (rest : List Nat) (a : Arena)
    (bs : List Block) (a2 : Arena)
    (h : Arena.allocList (s :: rest) a = some (bs, a2)) :
    ∃ b a1 bs1, a.alloc s = some (b, a1) ∧
      Arena.allocList rest a1 = some (bs1, a2) ∧ bs = b :: bs1 := by
  unfold Arena.allocList at h
  split at h
  · exact absurd h (by simp)
  · next b a1 heq =>
    split at h
    · exact absurd h (by simp)
    · next bs1 a3 heq2 =>
      injection h with h3
      injection h3 with h4 h5
      exact ⟨b, a1, bs1, heq, h5 ▸ heq2, h4.symm⟩

theorem Arena.allocList_chunks_mono : ∀ (sizes : List Nat) (a : Arena)
    (bs : List Block) (a2 : Arena),
    Arena.allocList sizes a = some (bs, a2) → a.chunks ≤ a2.chunks := by
  intro sizes
  induction sizes with
  | nil =>
    intro a bs a2 h
    obtain ⟨-, rfl⟩ := Arena.allocList_nil_inv a bs a2 h
    exact Nat.le_refl _
  | cons s rest ih =>
    intro a bs a2 h
    obtain ⟨b, a1, bs1, h1, h2, rfl⟩ := Arena.allocList_cons_inv s rest a bs a2 h
    exact Nat.le_trans (Arena.alloc_book a s b a1 h1).1 (ih a1 bs1 a2 h2)

theorem Arena.allocList_sizes : ∀ (sizes : List Nat) (a : Arena)
    (bs : List Block) (a2 : Arena),
    Arena.allocList sizes a = some (bs, a2) →
    bs.map Block.size = sizes.map roundUp8 := by
  intro sizes
  induction sizes with
  | nil =>
    intro a bs a2 h
    obtain ⟨rfl, -⟩ := Arena.allocList_nil_inv a bs a2 h
    rfl
  | cons s rest ih =>
    intro a bs a2 h
    obtain ⟨b, a1, bs1, h1, h2, rfl⟩ := Arena.allocList_cons_inv s rest a bs a2 h
    have hsize := (Arena.alloc_book a s b a1 h1).2.2.1
    simp [hsize, ih a1 bs1 a2 h2]

/-- Core disjointness invariant: every block handed out during a run fits the
final arena state, the run's blocks are pairwise disjoint, and any block that
fitted the starting state still fits afterwards and is disjoint from all
blocks of the run. -/
theorem Arena.allocList_disjoint : ∀ (sizes : List Nat) (a : Arena)
    (bs : List Block) (a2 : Arena),
    Arena.allocList sizes a = some (bs, a2) →
    (∀ b0, BlockFits b0 a → BlockFits b0 a2 ∧ ∀ b ∈ bs, BlockDisjoint b0 b) ∧
    (∀ b ∈ bs, BlockFits b a2) ∧
    List.Pairwise BlockDisjoint bs := by
  intro sizes
  induction sizes with
  | nil =>
    intro a bs a2 h
    obtain ⟨rfl, rfl⟩ := Arena.allocList_nil_inv a bs a2 h
    exact ⟨fun b0 hb0 => ⟨hb0, by simp⟩, by simp, List.Pairwise.nil⟩
  | cons s rest ih =>
    intro a bs a2 h
    obtain ⟨b, a1, bs1, h1, h2, rfl⟩ := Arena.allocList_cons_inv s rest a bs a2 h
    obtain ⟨hpres, hfits, hpw⟩ := ih a1 bs1 a2 h2
    have hbfit : BlockFits b a1 := Arena.alloc_fits_self a s b a1 h1
    refine ⟨?_, ?_, ?_⟩
    · intro b0 hb0
      obtain ⟨hb0a1, hb0b⟩ := Arena.alloc_preserve a s b a1 b0 hb0 h1
      obtain ⟨hb0a2, hb0bs1⟩ := hpres b0 hb0a1
      refine ⟨hb0a2, ?_⟩
      intro x hx
      cases hx with
      | head => exact hb0b
      | tail _ hx => exact hb0bs1 x hx
    · intro x hx
      cases hx with
      | head => exact (hpres b hbfit).1
      | tail _ hx => exact hfits x hx
    · exact List.Pairwise.cons (fun x hx => (hpres b hbfit).2 x hx) hpw

theorem Arena.allocList_mod8 : ∀ (sizes : List Nat) (a : Arena)
    (bs : List Block) (a2 : Arena),
    Arena.allocList sizes a = some (bs, a2) → a.index % 8 = 0 →
    a2.index % 8 = 0 ∧ ∀ b ∈ bs, b.offset % 8 = 0 := by
  intro sizes
  induction sizes with
  | nil =>
    intro a bs a2 h hmod
    obtain ⟨rfl, rfl⟩ := Arena.allocList_nil_inv a bs a2 h
    exact ⟨hmod, by simp⟩
  | cons s rest ih =>
    intro a bs a2 h hmod
    obtain ⟨b, a1, bs1, h1, h2, rfl⟩ := Arena.allocList_cons_inv s rest a bs a2 h
    obtain ⟨ha1, hb⟩ := Arena.alloc_mod8 a s b a1 hmod h1
    obtain ⟨ha2, hbs1⟩ := ih a1 bs1 a2 h2 ha1
    refine ⟨ha2, ?_⟩
    intro x hx
    cases hx with
    | head => exact hb
    | tail _ hx => exact hbs1 x hx

/-- If a run of allocations never opened a new chunk, the cursor advanced by
exactly the sum of the rounded sizes. -/
theorem Arena.allocList_same_chunk_sum : ∀ (sizes : List Nat) (a : Arena)
    (bs : List Block) (a2 : Arena),
    Arena.allocList sizes a = some (bs, a2) → a2.chunks = a.chunks →
    a2.index = a.index + (sizes.map roundUp8).sum := by
  intro sizes
  induction sizes with
  | nil =>
    intro a bs a2 h hsame
    obtain ⟨-, rfl⟩ := Arena.allocList_nil_inv a bs a2 h
    simp
  | cons s rest ih =>
    intro a bs a2 h hsame
    obtain ⟨b, a1, bs1, h1, h2, rfl⟩ := Arena.allocList_cons_inv s rest a bs a2 h
    have hmono1 := (Arena.alloc_book a s b a1 h1).1
    have hmono2 := Arena.allocList_chunks_mono rest a1 bs1 a2 h2
    have hsame1 : a1.chunks = a.chunks := by omega
    have hsame2 : a2.chunks = a1.chunks := by omega
    have hstep := Arena.alloc_same_chunk a s b a1 h1 hsame1
    have hrest := ih a1 bs1 a2 h2 hsame2
    simp [hrest, hstep]
    omega

/-- A nonempty successful run leaves the cursor strictly inside the last
chunk, at least one chunk exists, and (when every request is at least one
byte) the cursor is strictly positive. -/
theorem Arena.allocList_last_state : ∀ (sizes : List Nat) (a : Arena)
    (bs : List Block) (a2 : Arena),
    Arena.allocList sizes a = some (bs, a2) → sizes ≠ [] →
    a2.index < CHUNK_SIZE ∧ 0 < a2.chunks ∧ ((∀ s ∈ sizes, 1 ≤ s) → 8 ≤ a2.index) := by
  intro sizes
  induction sizes with
  | nil =>
    intro a bs a2 h hne
    exact absurd rfl hne
  | cons s rest ih =>
    intro a bs a2 h hne
    obtain ⟨b, a1, bs1, h1, h2, rfl⟩ := Arena.allocList_cons_inv s rest a bs a2 h
    have hchunks1 : 0 < a1.chunks := by
      have := (Arena.alloc_book a s b a1 h1).2.2.2.2
      omega
    rcases Decidable.em (rest = []) with hrest | hrest
    · subst hrest
      obtain ⟨-, rfl⟩ := Arena.allocList_nil_inv a1 bs1 a2 h2
      refine ⟨Arena.alloc_inv a s b a2 h1, hchunks1, ?_⟩
      intro hall
      exact Arena.alloc_min_index a s b a2 (hall s (by simp)) h1
    · obtain ⟨hinv, hch, hmin⟩ := ih a1 bs1 a2 h2 hrest
      refine ⟨hinv, hch, ?_⟩
      intro hall
      refine hmin ?_
      intro x hx
      exact hall x (by simp [hx])

/-! Facts about the `Var` constructors. -/

theorem Var.ofNum_some (v : Nat) (a : Var) (h : Var.ofNum v = some a) :
    0 < v ∧ v < MAX_NUM ∧ a = ⟨v⟩ := by
  unfold Var.ofNum at h
  split at h
  · next hc =>
    injection h with h2
    exact ⟨hc.1, hc.2, h2.symm⟩
  · exact absurd h (by simp)

theorem Var.ofName_some (n : Nat) (b : Var) (h : Var.ofName n = some b) :
    MAX_NUM < n ∧ b = ⟨n⟩ := by
  unfold Var.ofName at h
  split at h
  · next hc =>
    injection h with h2
    exact ⟨hc, h2.symm⟩
  · exact absurd h (by simp)

/-! Facts about minting. -/

theorem Module.mintN_range : ∀ (n : Nat) (m : Module),
    (Module.mintN n m).1 = List.range' m.nextVar n := by
  intro n
  induction n with
  | zero =>
    intro m
    rfl
  | succ k ih =>
    intro m
    show m.nextVar :: (Module.mintN k (Module.mint m).2).1 = _
    rw [ih, List.range'_succ]
    rfl

/-! The claims. -/

/-- Claim C1: `Var` equality is reflexive per mode and never crosses modes:
for every numeric value `v` with `0 < v < MAX_NUM`, `Var(v) == Var(v)`; for
every name, `Var(name) == Var(name)`; `Var(v) != Var(name)` always; and two
successfully constructed identifiers are equal iff both are numeric with equal
value or both are named with equal underlying name. -/
theorem spec_c1 (v n : Nat) (a b : Var)
    (ha : Var.ofNum v = some a) (hb : Var.ofName n = some b) :
    a = a ∧ b = b ∧ a ≠ b ∧
    (∀ (v2 : Nat) (c : Var), Var.ofNum v2 = some c → (a = c ↔ v = v2)) ∧
    (∀ (n2 : Nat) (d : Var), Var.ofName n2 = some d → (b = d ↔ n = n2)) := by
  obtain ⟨hv1, hv2, rfl⟩ := Var.ofNum_some v a ha
  obtain ⟨hn1, rfl⟩ := Var.ofName_some n b hb
  refine ⟨rfl, rfl, ?_, ?_, ?_⟩
  · intro he
    injection he with he2
    omega
  · intro v2 c hc
    obtain ⟨hv21, hv22, rfl⟩ := Var.ofNum_some v2 c hc
    exact ⟨fun h => congrArg Var.rep h, fun h => congrArg Var.mk h⟩
  · intro n2 d hd
    obtain ⟨hn21, rfl⟩ := Var.ofName_some n2 d hd
    exact ⟨fun h => congrArg Var.rep h, fun h => congrArg Var.mk h⟩

theorem spec_c1_witness :
    (⟨5⟩ : Var) ≠ ⟨1000001⟩ ∧ ((⟨5⟩ : Var) = ⟨5⟩ ↔ (5 : Nat) = 5) ∧
    ((⟨1000001⟩ : Var) = ⟨1000001⟩ ↔ (1000001 : Nat) = 1000001) := by
  have h := spec_c1 5 1000001 ⟨5⟩ ⟨1000001⟩ (by decide) (by decide)
  exact ⟨h.2.2.1, h.2.2.2.1 5 ⟨5⟩ (by decide), h.2.2.2.2 1000001 ⟨1000001⟩ (by decide)⟩

/-- Claim C2: construction misuse fails fast: a single allocation request
larger than the chunk size hits the assert (modelled as `none`), a numeric
`Var` outside `(0, MAX_NUM)` hits the assert, and a name whose address is not
above `MAX_NUM` hits the assert; none of these returns normally. -/
theorem spec_c2 :
    (∀ (s : Nat) (a : Arena), CHUNK_SIZE < s → a.alloc s = none) ∧
    (∀ v : Nat, ¬(0 < v ∧ v < MAX_NUM) → Var.ofNum v = none) ∧
    (∀ p : Nat, ¬ MAX_NUM < p → Var.ofName p = none) := by
  refine ⟨?_, ?_, ?_⟩
  · intro s a hs
    have h1 : ¬ roundUp8 s < CHUNK_SIZE := by
      have := roundUp8_ge s
      omega
    unfold Arena.alloc
    rw [if_neg h1]
  · intro v hv
    unfold Var.ofNum
    rw [if_neg hv]
  · intro p hp
    unfold Var.ofName
    rw [if_neg hp]

theorem spec_c2_witness :
    Arena.alloc Arena.fresh 10001 = none ∧
    Var.ofNum 0 = none ∧ Var.ofNum 1000000 = none ∧ Var.ofName 5 = none := by
  have h := spec_c2
  exact ⟨h.1 10001 Arena.fresh (by decide), h.2.1 0 (by decide),
    h.2.1 1000000 (by decide), h.2.2 5 (by decide)⟩

/-- Claim C3 (code bug): `struct Literal` was meant to pair the discriminant
with a payload, but as written the source only *declares* the nested union
type `Literal::value` and never adds a member of it, so a `Literal` stores
nothing besides its `type` tag: any two literals with the same discriminant
are indistinguishable, and so are the `Const` nodes built from them — no
payload can be written at construction and read back. -/
theorem spec_c3_bug (x y : Literal) :
    (x = y ↔ x.type = y.type) ∧
    (Expression.Const x = Expression.Const y ↔ x.type = y.type) := by
  obtain ⟨tx⟩ := x
  obtain ⟨ty⟩ := y
  constructor
  · constructor
    · intro h
      exact congrArg Literal.type h
    · intro h
      exact congrArg Literal.mk h
  · constructor
    · intro h
      injection h with h2
      exact congrArg Literal.type h2
    · intro h
      exact congrArg Expression.Const (congrArg Literal.mk h)

/-- Claim C4: minting `n` fresh identifiers from a freshly constructed module
yields `1, 2, …, n` in order — never 0, never a repeat, strictly increasing.
The mint operation is modelled from the spec (`Module.mint`); the source
supplies the counter `nextVar` and its initial value 1. -/
theorem spec_c4 (n : Nat) :
    (Module.mintN n Module.init).1 = List.range' 1 n ∧
    0 ∉ (Module.mintN n Module.init).1 ∧
    (Module.mintN n Module.init).1.Nodup ∧
    (Module.mintN n Module.init).1.Pairwise (· < ·) := by
  have h := Module.mintN_range n Module.init
  have hinit : Module.init.nextVar = 1 := rfl
  rw [hinit] at h
  refine ⟨h, ?_, ?_, ?_⟩
  · rw [h]
    intro hmem
    rw [List.mem_range'_1] at hmem
    omega
  · rw [h]
    exact List.nodup_range' 1 n
  · rw [h]
    exact List.pairwise_lt_range' 1 n

/-- Claim C5: registering a `Function` named "foo" and then resolving
`Var("foo")` returns that same function; resolving any identifier absent from
the map surfaces the unresolved-reference error rather than a silent default.
Registration and resolution are modelled from the spec; the source supplies
the `map` member. -/
theorem spec_c5 (m : Module) (f : Function) (v : Var) (m2 : Module)
    (hreg : Module.registerFunction m f = some m2)
    (hv : Var.ofName f.self.name = some v) :
    Module.resolve m2 v = Except.ok (Entity.func f) ∧
    (∀ (mm : Module) (w : Var), lookupVar mm.map w = none →
      Module.resolve mm w = Except.error "unresolved reference") := by
  constructor
  · unfold Module.registerFunction at hreg
    rw [hv] at hreg
    injection hreg with h2
    rw [← h2]
    unfold Module.resolve
    show (match lookupVar ((v, Entity.func f) :: m.map) v with
      | some e => Except.ok e
      | none => Except.error "unresolved reference") = _
    unfold lookupVar
    rw [if_pos rfl]
  · intro mm w hw
    unfold Module.resolve
    rw [hw]

theorem spec_c5_witness :
    Module.resolve
        { Module.init with
          functions := [⟨⟨1000001, BasicType.i32⟩, [], []⟩],
          map := [(⟨1000001⟩, Entity.func ⟨⟨1000001, BasicType.i32⟩, [], []⟩)] }
        ⟨1000001⟩ =
      Except.ok (Entity.func ⟨⟨1000001, BasicType.i32⟩, [], []⟩) ∧
    Module.resolve Module.init ⟨42⟩ = Except.error "unresolved reference" := by
  have h := spec_c5 Module.init ⟨⟨1000001, BasicType.i32⟩, [], []⟩ ⟨1000001⟩
    { Module.init with
      functions := [⟨⟨1000001, BasicType.i32⟩, [], []⟩],
      map := [(⟨1000001⟩, Entity.func ⟨⟨1000001, BasicType.i32⟩, [], []⟩)] }
    (by rfl) (by rfl)
  exact ⟨h.1, h.2 Module.init ⟨42⟩ (by rfl)⟩

/-- Claim C8: node fields read back exactly as constructed: a `Load` built
with `bytes=4, signed_=false, offset=8` whose address pointer designates a
`GetLocal` node exposes exactly those fields (and the pointer still
designates that same `GetLocal`), and a `Switch` built with three cases whose
fallthru flags are (true, true, false) plus a default exposes the cases in
order with exactly those flags — nothing is added or altered. -/
theorem spec_c8 (align p : Nat) (id sv : Var) (scrut d b1 b2 b3 : ExpressionRef)
    (l1 l2 l3 : Literal) (heap : Nat → Option Expression)
    (hp : heap p = some (Expression.GetLocal id)) :
    Expression.loadFields (Expression.Load 4 false 8 align (some p)) =
      some (4, false, 8, align, some p) ∧
    heap p = some (Expression.GetLocal id) ∧
    Expression.switchFields
        (Expression.Switch sv scrut [(l1, b1, true), (l2, b2, true), (l3, b3, false)] d) =
      some (sv, scrut, [(l1, b1, true), (l2, b2, true), (l3, b3, false)], d) ∧
    (Expression.switchFields
          (Expression.Switch sv scrut [(l1, b1, true), (l2, b2, true), (l3, b3, false)] d)).map
        (fun f => (f.2.2.1).map caseFallthru) =
      some [true, true, false] := by
  exact ⟨rfl, hp, rfl, rfl⟩

theorem spec_c8_witness :
    Expression.loadFields (Expression.Load 4 false 8 0 (some 64)) =
      some (4, false, 8, 0, some 64) ∧
    (Expression.switchFields
          (Expression.Switch Var.null none
            [(⟨BasicType.i32⟩, none, true), (⟨BasicType.i32⟩, none, true),
              (⟨BasicType.i32⟩, none, false)] none)).map
        (fun f => (f.2.2.1).map caseFallthru) =
      some [true, true, false] := by
  have h := spec_c8 0 64 Var.null Var.null none none none none none
    ⟨BasicType.i32⟩ ⟨BasicType.i32⟩ ⟨BasicType.i32⟩
    (fun q => if q = 64 then some (Expression.GetLocal Var.null) else none) (by rfl)
  exact ⟨h.1, h.2.2.2⟩

/-- Claim C10: the null identifier (word 0) arises only from the default
constructor: the numeric constructor enforces `0 < num < MAX_NUM`, the name
constructor enforces `address > MAX_NUM`, so every successfully constructed
`Var` is classified unambiguously by magnitude as exactly one of null,
numeric, or named. -/
theorem spec_c10 :
    Var.null.rep = 0 ∧ Var.null.classify = VarKind.null ∧
    (∀ (v : Nat) (a : Var), Var.ofNum v = some a →
      0 < a.rep ∧ a.rep < MAX_NUM ∧ a.classify = VarKind.numeric ∧ a ≠ Var.null) ∧
    (∀ (n : Nat) (b : Var), Var.ofName n = some b →
      MAX_NUM < b.rep ∧ b.classify = VarKind.named ∧ b ≠ Var.null) ∧
    (∀ (v n : Nat) (a b : Var),
      Var.ofNum v = some a → Var.ofName n = some b → a ≠ b) := by
  refine ⟨rfl, rfl, ?_, ?_, ?_⟩
  · intro v a ha
    obtain ⟨h1, h2, rfl⟩ := Var.ofNum_some v a ha
    refine ⟨h1, h2, ?_, ?_⟩
    · unfold Var.classify
      simp only []
      rw [if_neg (by omega), if_pos h2]
    · intro h
      have h0 : v = 0 := congrArg Var.rep h
      omega
  · intro n b hb
    obtain ⟨h1, rfl⟩ := Var.ofName_some n b hb
    refine ⟨h1, ?_, ?_⟩
    · unfold Var.classify
      simp only []
      rw [if_neg (by omega), if_neg (by omega)]
    · intro h
      have h0 : n = 0 := congrArg Var.rep h
      omega
  · intro v n a b ha hb
    obtain ⟨h1, h2, rfl⟩ := Var.ofNum_some v a ha
    obtain ⟨h3, rfl⟩ := Var.ofName_some n b hb
    intro h
    have h0 : v = n := congrArg Var.rep h
    omega

theorem spec_c10_witness :
    (0 < (⟨7⟩ : Var).rep ∧ (⟨7⟩ : Var).classify = VarKind.numeric) ∧
    ((⟨2000000⟩ : Var).classify = VarKind.named ∧ (⟨2000000⟩ : Var) ≠ Var.null) ∧
    (⟨7⟩ : Var) ≠ ⟨2000000⟩ := by
  have h := spec_c10
  have h7 := h.2.2.1 7 ⟨7⟩ (by decide)
  have hn := h.2.2.2.1 2000000 ⟨2000000⟩ (by decide)
  exact ⟨⟨h7.1, h7.2.2.1⟩, ⟨hn.2.1, hn.2.2⟩,
    h.2.2.2.2 7 2000000 ⟨7⟩ ⟨2000000⟩ (by decide) (by decide)⟩

/-- Claim C6: any run of allocations whose rounded sizes sum to more than one
chunk opens at least one chunk beyond the first, and all returned regions are
pairwise non-overlapping with pairwise distinct pointers. -/
theorem spec_c6 (sizes : List Nat) (bs : List Block) (a2 : Arena)
    (hpos : ∀ s ∈ sizes, 1 ≤ s)
    (h : Arena.allocList sizes Arena.fresh = some (bs, a2)) :
    (CHUNK_SIZE < (sizes.map roundUp8).sum → 2 ≤ a2.chunks) ∧
    List.Pairwise BlockDisjoint bs ∧
    List.Pairwise (fun x y => x.chunk ≠ y.chunk ∨ x.offset ≠ y.offset) bs := by
  have hpw := (Arena.allocList_disjoint sizes Arena.fresh bs a2 h).2.2
  have hmap := Arena.allocList_sizes sizes Arena.fresh bs a2 h
  have hsz : ∀ b ∈ bs, 8 ≤ b.size := by
    intro b hb
    have hmem : b.size ∈ bs.map Block.size := List.mem_map_of_mem _ hb
    rw [hmap] at hmem
    obtain ⟨s, hs, hse⟩ := List.mem_map.1 hmem
    rw [← hse]
    exact roundUp8_pos s (hpos s hs)
  refine ⟨?_, hpw, ?_⟩
  · intro hsum
    cases sizes with
    | nil => exact absurd hsum (by simp)
    | cons s rest =>
      obtain ⟨b, a1, bs1, h1, h2, rfl⟩ :=
        Arena.allocList_cons_inv s rest Arena.fresh _ a2 h
      obtain ⟨hlt, hcase | hcase⟩ := Arena.alloc_cases Arena.fresh s b a1 h1
      · obtain ⟨-, hb, ha1⟩ := hcase
        by_contra hlt2
        have hmono := Arena.allocList_chunks_mono rest a1 bs1 a2 h2
        have hch1 : a1.chunks = 1 := by simp [ha1, Arena.fresh]
        have hsame : a2.chunks = a1.chunks := by omega
        have hsum2 := Arena.allocList_same_chunk_sum rest a1 bs1 a2 h2 hsame
        have hinv : a2.index < CHUNK_SIZE :=
          (Arena.allocList_last_state (s :: rest) Arena.fresh _ a2 h (by simp)).1
        have hidx1 : a1.index = roundUp8 s := by simp [ha1]
        simp only [List.map_cons, List.sum_cons] at hsum
        omega
      · exact absurd (Or.inl rfl) hcase.1
  · refine hpw.imp_of_mem ?_
    intro x y hx hy hd
    rcases hd with hc | hoff | hoff
    · exact Or.inl hc
    · refine Or.inr ?_
      intro heq
      have := hsz x hx
      omega
    · refine Or.inr ?_
      intro heq
      have := hsz y hy
      omega

theorem spec_c6_witness :
    2 ≤ (Arena.mk 2 16).chunks ∧
    List.Pairwise BlockDisjoint [Block.mk 0 0 9992, Block.mk 1 0 16] := by
  have h := spec_c6 [9992, 16] [⟨0, 0, 9992⟩, ⟨1, 0, 16⟩] ⟨2, 16⟩ (by decide) (by rfl)
  exact ⟨h.1 (by decide), h.2.1⟩

/-- Claim C7, counterexample to "the returned offset is a multiple of
`alignof(T)`" for *every* type: `alloc` rounds sizes to multiples of 8 and
ignores alignments above 8.  Allocating an 8-byte type and then a 16-byte,
16-aligned type (e.g. `long double` on x86-64) places the second region at
offset 8, which is not a multiple of 16. -/
theorem spec_c7_counterexample :
    Arena.allocList [8, 16] Arena.fresh = some ([⟨0, 0, 8⟩, ⟨0, 8, 16⟩], ⟨1, 24⟩) ∧
    ¬ (16 ∣ (8 : Nat)) := by
  exact ⟨rfl, by decide⟩

/-- Claim C7 (amended): `alloc` returns a region of at least `sizeof(T)` bytes
whose offset is a multiple of 8 — so the storage is correctly aligned for
every type whose alignment requirement divides 8, but not necessarily for
over-aligned types. -/
theorem spec_c7_amended (sizes : List Nat) (bs : List Block) (a2 : Arena)
    (h : Arena.allocList sizes Arena.fresh = some (bs, a2)) :
    bs.map Block.size = sizes.map roundUp8 ∧
    (∀ s ∈ sizes, s ≤ roundUp8 s) ∧
    (∀ b ∈ bs, b.offset % 8 = 0 ∧ ∀ d : Nat, d ∣ 8 → d ∣ b.offset) := by
  have hmap := Arena.allocList_sizes sizes Arena.fresh bs a2 h
  have hmod := Arena.allocList_mod8 sizes Arena.fresh bs a2 h (by rfl)
  refine ⟨hmap, fun s _ => roundUp8_ge s, ?_⟩
  intro b hb
  have hb8 := hmod.2 b hb
  exact ⟨hb8, fun d hd => dvd_trans hd (Nat.dvd_of_mod_eq_zero hb8)⟩

theorem spec_c7_witness :
    [Block.mk 0 0 8, Block.mk 0 8 16].map Block.size = [8, 16].map roundUp8 ∧
    (Block.mk 0 8 16).offset % 8 = 0 := by
  have h := spec_c7_amended [8, 16] [⟨0, 0, 8⟩, ⟨0, 8, 16⟩] ⟨1, 24⟩ (by rfl)
  exact ⟨h.1, (h.2.2 ⟨0, 8, 16⟩ (by simp)).1⟩

/-- Claim C9: after every successful allocation the cursor satisfies
`0 < index < CHUNK_SIZE` and every returned region lies strictly inside a
single chunk; a request that would exactly fill the remaining space of the
current chunk (`index + roundedSize == CHUNK_SIZE`) starts a fresh chunk
instead, so no chunk is ever filled to exactly `CHUNK_SIZE`. -/
theorem spec_c9 :
    (∀ (sizes : List Nat) (bs : List Block) (a2 : Arena),
      (∀ s ∈ sizes, 1 ≤ s) →
      Arena.allocList sizes Arena.fresh = some (bs, a2) →
      (sizes ≠ [] → 0 < a2.index ∧ a2.index < CHUNK_SIZE) ∧
      (∀ b ∈ bs, b.offset + b.size < CHUNK_SIZE)) ∧
    (∀ (a : Arena) (s : Nat) (b : Block) (a2 : Arena),
      a.alloc s = some (b, a2) → a.index + roundUp8 s = CHUNK_SIZE →
      a2.chunks = a.chunks + 1 ∧ b.offset = 0 ∧ a2.index = roundUp8 s ∧
        a2.index < CHUNK_SIZE) := by
  constructor
  · intro sizes bs a2 hpos h
    constructor
    · intro hne
      obtain ⟨hinv, hch, hmin⟩ := Arena.allocList_last_state sizes Arena.fresh bs a2 h hne
      have h8 := hmin hpos
      exact ⟨by omega, hinv⟩
    · intro b hb
      exact ((Arena.allocList_disjoint sizes Arena.fresh bs a2 h).2.1 b hb).2.2
  · intro a s b a2 h hfill
    obtain ⟨hc, ho, hi⟩ := Arena.alloc_exact_fill a s b a2 h hfill
    refine ⟨hc, ho, hi, ?_⟩
    rw [hi]
    exact (Arena.alloc_cases a s b a2 h).1

theorem spec_c9_witness :
    (0 < (Arena.mk 1 16).index ∧ (Arena.mk 1 16).index < CHUNK_SIZE) ∧
    (Arena.mk 2 16).chunks = (Arena.mk 1 9984).chunks + 1 ∧
    (Block.mk 1 0 16).offset = 0 := by
  have h1 := spec_c9.1 [16] [⟨0, 0, 16⟩] ⟨1, 16⟩ (by decide) (by rfl)
  have h2 := spec_c9.2 ⟨1, 9984⟩ 16 ⟨1, 0, 16⟩ ⟨2, 16⟩ (by rfl) (by decide)
  exact ⟨h1.1 (by decide), h2.1, h2.2.1⟩

end wasm
